import Mathlib

/-
Verification development for the vcard-ts library (a VCard 3.0 / RFC 2426
formatter written in TypeScript).

Modelling conventions:
- JavaScript strings are modelled as `List Char`.  JS indexes UTF-16 code
  units; for the basic-multilingual-plane characters this repository deals
  with, one code unit is one `Char`, so list length matches `String.length`.
- `str.replace(/re/g, rep)` with the concrete regular expressions used by
  the source is modelled by direct recursion implementing the same
  left-to-right, leftmost-longest (alternation-ordered) single-pass scan.
- `undefined`-guarded optional fields are modelled with `Option`.
-/

/-- Characters of a Lean string literal, used to transcribe the string
literals of the TypeScript source. -/
def strL (s : String) : List Char := s.data

/-! ## utils.ts -/

/-- Source `escapeText`, first step: `text.replace(/\r\n|\r|\n/g, '\n')`.
The alternation tries `\r\n` first, so a CRLF pair is consumed as one match. -/
def normalizeNewlines : List Char → List Char
  | [] => []
  | [c] => if c = '\r' then ['\n'] else [c]
  | c :: d :: rest =>
    if c = '\r' then
      if d = '\n' then '\n' :: normalizeNewlines rest
      else '\n' :: normalizeNewlines (d :: rest)
    else c :: normalizeNewlines (d :: rest)

/-- Source `escapeText`, `.replace(/\\/g, '\\\\')`: each backslash becomes two. -/
def escBackslash : List Char → List Char
  | [] => []
  | c :: rest => (if c = '\\' then ['\\', '\\'] else [c]) ++ escBackslash rest

/-- Source `escapeText`, `.replace(/;/g, '\\;')`. -/
def escSemicolon : List Char → List Char
  | [] => []
  | c :: rest => (if c = ';' then ['\\', ';'] else [c]) ++ escSemicolon rest

/-- Source `escapeText`, `.replace(/,/g, '\\,')`. -/
def escComma : List Char → List Char
  | [] => []
  | c :: rest => (if c = ',' then ['\\', ','] else [c]) ++ escComma rest

/-- Source `escapeText`, `.replace(/\n/g, '\\n')`: the line-break marker
becomes backslash followed by the letter n. -/
def escNewlineMark : List Char → List Char
  | [] => []
  | c :: rest => (if c = '\n' then ['\\', 'n'] else [c]) ++ escNewlineMark rest

/-- Source `escapeText` (utils.ts): normalize newline variants, then escape
backslash, semicolon, comma and the line-break marker, in that order. -/
def escapeText (text : List Char) : List Char :=
  escNewlineMark (escComma (escSemicolon (escBackslash (normalizeNewlines text))))

/-- Per-character escape table; the claim describes `escapeText` as applying
these escapes in one pass over the normalized text. -/
def escChar (c : Char) : List Char :=
  if c = '\\' then ['\\', '\\']
  else if c = ';' then ['\\', ';']
  else if c = ',' then ['\\', ',']
  else if c = '\n' then ['\\', 'n']
  else [c]

/-- One-pass escaping of a whole text with `escChar`. -/
def escOnePass : List Char → List Char
  | [] => []
  | c :: rest => escChar c ++ escOnePass rest

/-- Source `escapeParamValue`, first step: `value.replace(/\r\n|\r|\n/g, ' ')`. -/
def normalizeParam : List Char → List Char
  | [] => []
  | [c] => if c = '\r' ∨ c = '\n' then [' '] else [c]
  | c :: d :: rest =>
    if c = '\r' then
      if d = '\n' then ' ' :: normalizeParam rest
      else ' ' :: normalizeParam (d :: rest)
    else if c = '\n' then ' ' :: normalizeParam (d :: rest)
    else c :: normalizeParam (d :: rest)

/-- Source `escapeParamValue`: the character class of `/[";:,]/`. -/
def isParamUnsafe (c : Char) : Bool :=
  c = '"' || c = ';' || c = ':' || c = ','

/-- Source `escapeParamValue` (utils.ts): normalize line breaks to spaces;
quote when a ptext-forbidden character is present, replacing literal double
quotes by apostrophes inside the quoted form. -/
def escapeParamValue (value : List Char) : List Char :=
  let normalized := normalizeParam value
  if normalized.any isParamUnsafe then
    '"' :: normalized.map (fun c => if c = '"' then '\'' else c) ++ ['"']
  else normalized

/-- Source `foldLine` (utils.ts), the continuation-building loop: while input
remains, emit CRLF, a space and up to 74 further characters. -/
def foldTail (cur : List Char) : List Char :=
  if cur.isEmpty then []
  else '\r' :: '\n' :: ' ' :: (cur.take 74 ++ foldTail (cur.drop 74))
termination_by cur.length
decreasing_by
  simp only [List.length_drop]
  cases cur with
  | nil => simp [List.isEmpty] at *
  | cons c t => simp; omega

/-- Source `foldLine` (utils.ts): a line of length at most 75 is returned
unchanged; otherwise the first 75 characters are followed by folded
continuations. -/
def foldLine (line : List Char) : List Char :=
  if line.length ≤ 75 then line
  else line.take 75 ++ foldTail (line.drop 75)

/-! ## Analysis helpers for the folding claim

`removeFold` deletes every occurrence of the sequence CR LF SP in a single
left-to-right pass (the semantics of replacing the sequence by the empty
string); `splitCRLF` cuts a text at each CR LF terminator; `hasFoldSeq`
detects an occurrence of CR LF SP. -/

def removeFold : List Char → List Char
  | [] => []
  | [c] => [c]
  | [c, d] => [c, d]
  | c :: d :: e :: rest =>
    if c = '\r' ∧ d = '\n' ∧ e = ' ' then removeFold rest
    else c :: removeFold (d :: e :: rest)

def hasFoldSeq : List Char → Bool
  | [] => false
  | [_] => false
  | [_, _] => false
  | c :: d :: e :: rest =>
    if c = '\r' ∧ d = '\n' ∧ e = ' ' then true else hasFoldSeq (d :: e :: rest)

def consHead (c : Char) : List (List Char) → List (List Char)
  | [] => [[c]]
  | s :: ss => (c :: s) :: ss

def splitCRLF : List Char → List (List Char)
  | [] => [[]]
  | [c] => [[c]]
  | c :: d :: rest =>
    if c = '\r' ∧ d = '\n' then [] :: splitCRLF rest
    else consHead c (splitCRLF (d :: rest))

/-! ## Dates (utils.ts `formatDate`, `formatDateTime`)

A JS `Date` is modelled by the values its accessors return: the local
calendar fields used by `formatDate` and the UTC fields used by
`formatDateTime`.  `getMonth` is zero-based. -/

structure JsDate where
  fullYear : Int
  month0 : Nat
  day : Nat
  utcFullYear : Int
  utcMonth0 : Nat
  utcDay : Nat
  utcHours : Nat
  utcMinutes : Nat
  utcSeconds : Nat

/-- Decimal digits of a natural number (JS `Number.prototype.toString` on a
non-negative integer). -/
def natChars (n : Nat) : List Char := (Nat.repr n).data

/-- Decimal rendering of an integer (`toString` of an integral JS number;
non-integral numeric rendering is outside the scope of these claims). -/
def intChars (i : Int) : List Char := (Int.repr i).data

/-- Source `String(x).padStart(2, '0')`. -/
def pad2 (n : Nat) : List Char :=
  if (natChars n).length = 1 then '0' :: natChars n else natChars n

/-- Source `formatDate` (utils.ts): `YYYY-MM-DD` from the local calendar
fields. -/
def formatDate (date : JsDate) : List Char :=
  intChars date.fullYear ++ '-' :: pad2 (date.month0 + 1) ++ '-' :: pad2 date.day

/-- Source `formatDateTime` (utils.ts): `YYYY-MM-DDTHH:MM:SSZ` from the UTC
fields. -/
def formatDateTime (date : JsDate) : List Char :=
  intChars date.utcFullYear ++ '-' :: pad2 (date.utcMonth0 + 1) ++ '-' :: pad2 date.utcDay
    ++ 'T' :: pad2 date.utcHours ++ ':' :: pad2 date.utcMinutes ++ ':' :: pad2 date.utcSeconds
    ++ ['Z']

/-! ## Misc character-level helpers used by formatter.ts -/

/-- The whitespace class of JS `String.prototype.trim` (the characters
relevant to this code base; `trim` also strips a few rarer Unicode spaces). -/
def isJsSpace (c : Char) : Bool :=
  c = ' ' || c = '\t' || c = '\n' || c = '\r' || c = '\x0b' || c = '\x0c' || c = ' '

/-- Source `entry.type.trim()`. -/
def jsTrim (s : List Char) : List Char :=
  ((s.dropWhile isJsSpace).reverse.dropWhile isJsSpace).reverse

/-- Source regular expression `/^[+-]\d{2}:\d{2}$/` used for TZ. -/
def isUtcOffset : List Char → Bool
  | [sg, d1, d2, co, d3, d4] =>
    (sg = '+' || sg = '-') && d1.isDigit && d2.isDigit && (co = ':') && d3.isDigit && d4.isDigit
  | _ => false

/-! ## Data model (types.ts) -/

/-- Structured name value for N (types.ts `Name`). -/
structure Name where
  familyName : Option (List Char) := none
  givenName : Option (List Char) := none
  additionalNames : Option (List (List Char)) := none
  honorificPrefixes : Option (List (List Char)) := none
  honorificSuffixes : Option (List (List Char)) := none

/-- Structured address value for ADR (types.ts `Address`). -/
structure Address where
  postOfficeBox : Option (List Char) := none
  extendedAddress : Option (List Char) := none
  street : Option (List Char) := none
  locality : Option (List Char) := none
  region : Option (List Char) := none
  postalCode : Option (List Char) := none
  country : Option (List Char) := none
  types : Option (List (List Char)) := none

/-- Telephone property value (types.ts `Phone`). -/
structure Phone where
  value : List Char
  types : Option (List (List Char)) := none

/-- Email property value (types.ts `Email`). -/
structure Email where
  value : List Char
  types : Option (List (List Char)) := none

/-- Media value for PHOTO, LOGO, SOUND, KEY (types.ts `Media`): a tagged
union of a remote reference and inline binary-as-text content. -/
inductive Media where
  | uriRef (uri : List Char) (mediaType : Option (List Char))
  | inlineData (value : List Char) (mediaType : Option (List Char))

/-- Geographic coordinates for GEO (types.ts `Geo`); integral coordinates
are modelled, matching `number.toString` on integers. -/
structure Geo where
  latitude : Int
  longitude : Int

/-- AGENT value (types.ts `Agent`). -/
structure Agent where
  value : Option (List Char) := none
  uri : Option (List Char) := none

/-- Organization value for ORG. -/
structure Organization where
  name : Option (List Char) := none
  units : Option (List (List Char)) := none

/-- LABEL entry (types.ts `labels` element). -/
structure LabelEntry where
  value : List Char
  types : Option (List (List Char)) := none

/-- URL entry (types.ts `Url`); `type` is the optional iOS display label. -/
structure Url where
  value : List Char
  type : Option (List Char) := none

/-- Custom extension property (types.ts `CustomProperty`); the JS
`Record<string, string>` parameter bag is an insertion-ordered association
list with unique keys. -/
structure CustomProperty where
  name : List Char
  value : List Char
  params : Option (List (List Char × List Char)) := none

/-- Access classification for CLASS (types.ts `Classification`). -/
inductive Classification where
  | PUBLIC
  | PRIVATE
  | CONFIDENTIAL

def classChars : Classification → List Char
  | .PUBLIC => strL "PUBLIC"
  | .PRIVATE => strL "PRIVATE"
  | .CONFIDENTIAL => strL "CONFIDENTIAL"

/-- A `Date | string` union field (birthday, revision). -/
inductive DateOr where
  | date (d : JsDate)
  | str (s : List Char)

/-- Main vCard object (types.ts `VCard`).  The TS `version: '3.0'` literal
field is never read by the formatter and is omitted; the TS field `class`
is called `classification` here because `class` is a Lean keyword. -/
structure VCard where
  formattedName : List Char
  name : Name
  charset : Option (List Char) := none
  nickname : Option (List (List Char)) := none
  photo : Option Media := none
  birthday : Option DateOr := none
  addresses : Option (List Address) := none
  labels : Option (List LabelEntry) := none
  phones : Option (List Phone) := none
  emails : Option (List Email) := none
  mailer : Option (List Char) := none
  timezone : Option (List Char) := none
  geo : Option Geo := none
  title : Option (List Char) := none
  role : Option (List Char) := none
  logo : Option Media := none
  agent : Option Agent := none
  organization : Option Organization := none
  categories : Option (List (List Char)) := none
  note : Option (List Char) := none
  productId : Option (List Char) := none
  revision : Option DateOr := none
  sortString : Option (List Char) := none
  sound : Option Media := none
  uid : Option (List Char) := none
  urls : Option (List Url) := none
  url : Option (List Char) := none
  classification : Option Classification := none
  key : Option Media := none
  customProperties : Option (List CustomProperty) := none

/-- Options bag for `formatVCard`.  The `charset` field is what formatter.ts
reads (`options?.charset`); `includeContentType` is declared by the README
API documentation (the `FormatVCardOptions` declaration itself is not among
the provided sources) and is never read by the formatter. -/
structure FormatVCardOptions where
  charset : Option (List Char) := none
  includeContentType : Bool := false

/-! ## formatter.ts -/

/-- Lines contributed by an `undefined`-guarded optional field:
`if (x !== undefined) ...`. -/
def optLines {α : Type} (o : Option α) (f : α → List (List Char)) : List (List Char) :=
  match o with
  | some x => f x
  | none => []

/-- Source formatter.ts line 23: the `;CHARSET=...` suffix, empty when no
charset option was supplied. -/
def charsetParamFrom : Option (List Char) → List Char
  | some c => strL ";CHARSET=" ++ escapeParamValue c
  | none => []

/-- Source `formatName` (formatter.ts): the N property line. -/
def formatName (name : Name) (charsetParam : List Char) : List Char :=
  let familyName := match name.familyName with | some s => escapeText s | none => []
  let givenName := match name.givenName with | some s => escapeText s | none => []
  let additionalNames := match name.additionalNames with
    | some l => if 0 < l.length then List.intercalate [','] (l.map escapeText) else []
    | none => []
  let prefixes := match name.honorificPrefixes with
    | some l => if 0 < l.length then List.intercalate [','] (l.map escapeText) else []
    | none => []
  let suffixes := match name.honorificSuffixes with
    | some l => if 0 < l.length then List.intercalate [','] (l.map escapeText) else []
    | none => []
  'N' :: charsetParam ++ ':' :: familyName ++ ';' :: givenName ++ ';' :: additionalNames
    ++ ';' :: prefixes ++ ';' :: suffixes

/-- Source `formatAddress` (formatter.ts): the ADR property line. -/
def formatAddress (address : Address) (charsetParam : List Char) : List Char :=
  let typeParam := match address.types with
    | some ts => if 0 < ts.length then strL ";TYPE=" ++ List.intercalate [','] ts else []
    | none => []
  let poBox := match address.postOfficeBox with | some s => escapeText s | none => []
  let extAddr := match address.extendedAddress with | some s => escapeText s | none => []
  let street := match address.street with | some s => escapeText s | none => []
  let locality := match address.locality with | some s => escapeText s | none => []
  let region := match address.region with | some s => escapeText s | none => []
  let postalCode := match address.postalCode with | some s => escapeText s | none => []
  let country := match address.country with | some s => escapeText s | none => []
  strL "ADR" ++ typeParam ++ charsetParam ++ ':' :: poBox ++ ';' :: extAddr ++ ';' :: street
    ++ ';' :: locality ++ ';' :: region ++ ';' :: postalCode ++ ';' :: country

/-- Source `formatTelephone` (formatter.ts); the value is not escaped. -/
def formatTelephone (tel : Phone) : List Char :=
  let typeParam := match tel.types with
    | some ts => if 0 < ts.length then strL ";TYPE=" ++ List.intercalate [','] ts else []
    | none => []
  strL "TEL" ++ typeParam ++ ':' :: tel.value

/-- Source `formatEmail` (formatter.ts). -/
def formatEmail (email : Email) (charsetParam : List Char) : List Char :=
  let typeParam := match email.types with
    | some ts => if 0 < ts.length then strL ";TYPE=" ++ List.intercalate [','] ts else []
    | none => []
  strL "EMAIL" ++ typeParam ++ charsetParam ++ ':' :: escapeText email.value

/-- Source `formatMedia` (formatter.ts); KEY is special-cased: a remote
reference is emitted as plain escaped text without a reference marker. -/
def formatMedia (propertyName : List Char) (media : Media) : List (List Char) :=
  if propertyName = strL "KEY" then
    match media with
    | .uriRef uri _ => [strL "KEY:" ++ escapeText uri]
    | .inlineData v mt =>
      let typeParam := match mt with | some m => strL ";TYPE=" ++ m | none => []
      [strL "KEY;ENCODING=b" ++ typeParam ++ ':' :: v]
  else
    match media with
    | .uriRef uri mt =>
      let typeParam := match mt with | some m => strL ";TYPE=" ++ m | none => []
      [propertyName ++ strL ";VALUE=uri" ++ typeParam ++ ':' :: uri]
    | .inlineData v mt =>
      let typeParam := match mt with | some m => strL ";TYPE=" ++ m | none => []
      [propertyName ++ strL ";ENCODING=b" ++ typeParam ++ ':' :: v]

/-- Source `formatUrlsForApple` (formatter.ts), the indexed `forEach` body:
the entry with zero-based index `i` is grouped under `item{i+1}.`; the URL
value is passed through unescaped; a trimmed-non-empty label additionally
yields an `X-ABLabel` line with the label escaped as text. -/
def formatUrlsGo (i : Nat) : List Url → List (List Char)
  | [] => []
  | e :: rest =>
    (strL "item" ++ natChars (i + 1) ++ strL ".URL:" ++ e.value)
      :: ((match e.type with
          | some t =>
            if jsTrim t = [] then []
            else [strL "item" ++ natChars (i + 1) ++ strL ".X-ABLabel:" ++ escapeText t]
          | none => []) ++ formatUrlsGo (i + 1) rest)

/-- Source `formatUrlsForApple` (formatter.ts). -/
def formatUrlsForApple (urls : List Url) : List (List Char) :=
  formatUrlsGo 0 urls

/-- JS object-spread overlay semantics used for custom-property parameters:
an existing key is overwritten in place, a new key is appended. -/
def insertParam (acc : List (List Char × List Char)) (kv : List Char × List Char) :
    List (List Char × List Char) :=
  if acc.any (fun e => e.1 == kv.1) then
    acc.map (fun e => if e.1 == kv.1 then (e.1, kv.2) else e)
  else acc ++ [kv]

/-- Source formatter.ts lines 201-220: one custom (`X-`) property line. -/
def customPropertyLine (charset : Option (List Char)) (prop : CustomProperty) : List Char :=
  let base := match charset with | some c => [(strL "charset", c)] | none => []
  let params := (match prop.params with | some ps => ps | none => []).foldl insertParam base
  let nameU := prop.name.map Char.toUpper
  let withParams :=
    if 0 < params.length then
      nameU ++ ';' :: List.intercalate [';']
        (params.map fun kv => kv.1.map Char.toUpper ++ '=' :: escapeParamValue kv.2)
    else nameU
  withParams ++ ':' :: escapeText prop.value

/-- Source formatter.ts lines 181-188: the legacy single URL field is
emitted as a bare line only when its value does not already occur in the
`urls` list. -/
def legacyUrlLines (urls : Option (List Url)) (url : Option (List Char)) : List (List Char) :=
  optLines url fun u =>
    if (match urls with | some us => us.any (fun e => e.value == u) | none => false) then []
    else [strL "URL:" ++ u]

/-- Source formatter.ts lines 37-40 (NICKNAME). -/
def nicknameLines (nickname : Option (List (List Char))) (charsetParam : List Char) :
    List (List Char) :=
  optLines nickname fun l =>
    if 0 < l.length then
      [strL "NICKNAME" ++ charsetParam ++ ':' :: List.intercalate [','] (l.map escapeText)]
    else []

/-- Source formatter.ts lines 42-45 (PHOTO). -/
def photoLines (photo : Option Media) : List (List Char) :=
  optLines photo fun m => formatMedia (strL "PHOTO") m

/-- Source formatter.ts lines 47-51 (BDAY). -/
def bdayLines (birthday : Option DateOr) : List (List Char) :=
  optLines birthday fun b =>
    [strL "BDAY:" ++ (match b with | .date d => formatDate d | .str s => s)]

/-- Source formatter.ts lines 53-58 (ADR). -/
def addressLines (addresses : Option (List Address)) (charsetParam : List Char) :
    List (List Char) :=
  optLines addresses fun l => l.map fun a => formatAddress a charsetParam

/-- Source formatter.ts lines 60-66 (LABEL). -/
def labelLines (labels : Option (List LabelEntry)) (charsetParam : List Char) :
    List (List Char) :=
  optLines labels fun l => l.map fun lab =>
    (let typeParam := match lab.types with
      | some ts => if 0 < ts.length then strL ";TYPE=" ++ List.intercalate [','] ts else []
      | none => []
     strL "LABEL" ++ typeParam ++ charsetParam ++ ':' :: escapeText lab.value)

/-- Source formatter.ts lines 68-73 (TEL). -/
def phoneLines (phones : Option (List Phone)) : List (List Char) :=
  optLines phones fun l => l.map formatTelephone

/-- Source formatter.ts lines 75-80 (EMAIL). -/
def emailLines (emails : Option (List Email)) (charsetParam : List Char) : List (List Char) :=
  optLines emails fun l => l.map fun e => formatEmail e charsetParam

/-- Source formatter.ts lines 82-85 (MAILER). -/
def mailerLines (mailer : Option (List Char)) (charsetParam : List Char) : List (List Char) :=
  optLines mailer fun m => [strL "MAILER" ++ charsetParam ++ ':' :: escapeText m]

/-- Source formatter.ts lines 87-93 (TZ). -/
def tzLines (timezone : Option (List Char)) (charsetParam : List Char) : List (List Char) :=
  optLines timezone fun tz =>
    if isUtcOffset tz then [strL "TZ:" ++ tz]
    else [strL "TZ;VALUE=text" ++ charsetParam ++ ':' :: escapeText tz]

/-- Source formatter.ts lines 95-98 (GEO). -/
def geoLines (geo : Option Geo) : List (List Char) :=
  optLines geo fun g => [strL "GEO:" ++ intChars g.latitude ++ ';' :: intChars g.longitude]

/-- Source formatter.ts lines 100-103 (TITLE). -/
def titleLines (title : Option (List Char)) (charsetParam : List Char) : List (List Char) :=
  optLines title fun t => [strL "TITLE" ++ charsetParam ++ ':' :: escapeText t]

/-- Source formatter.ts lines 105-108 (ROLE). -/
def roleLines (role : Option (List Char)) (charsetParam : List Char) : List (List Char) :=
  optLines role fun r => [strL "ROLE" ++ charsetParam ++ ':' :: escapeText r]

/-- Source formatter.ts lines 110-113 (LOGO). -/
def logoLines (logo : Option Media) : List (List Char) :=
  optLines logo fun m => formatMedia (strL "LOGO") m

/-- Source formatter.ts lines 115-122 (AGENT). -/
def agentLines (agent : Option Agent) (charsetParam : List Char) : List (List Char) :=
  optLines agent fun a =>
    match a.uri with
    | some u => [strL "AGENT;VALUE=uri:" ++ u]
    | none => match a.value with
      | some t => [strL "AGENT" ++ charsetParam ++ ':' :: escapeText t]
      | none => []

/-- Source formatter.ts lines 124-136 (ORG). -/
def orgLines (organization : Option Organization) (charsetParam : List Char) :
    List (List Char) :=
  optLines organization fun o =>
    (let orgParts :=
      (match o.name with | some n => [escapeText n] | none => [])
      ++ (match o.units with
          | some us => if 0 < us.length then us.map escapeText else []
          | none => [])
     if 0 < orgParts.length then
       [strL "ORG" ++ charsetParam ++ ':' :: List.intercalate [';'] orgParts]
     else [])

/-- Source formatter.ts lines 138-141 (CATEGORIES). -/
def categoriesLines (categories : Option (List (List Char))) (charsetParam : List Char) :
    List (List Char) :=
  optLines categories fun l =>
    if 0 < l.length then
      [strL "CATEGORIES" ++ charsetParam ++ ':' :: List.intercalate [','] (l.map escapeText)]
    else []

/-- Source formatter.ts lines 143-146 (NOTE). -/
def noteLines (note : Option (List Char)) (charsetParam : List Char) : List (List Char) :=
  optLines note fun t => [strL "NOTE" ++ charsetParam ++ ':' :: escapeText t]

/-- Source formatter.ts lines 148-151 (PRODID). -/
def prodidLines (productId : Option (List Char)) (charsetParam : List Char) :
    List (List Char) :=
  optLines productId fun t => [strL "PRODID" ++ charsetParam ++ ':' :: escapeText t]

/-- Source formatter.ts lines 153-157 (REV). -/
def revLines (revision : Option DateOr) : List (List Char) :=
  optLines revision fun r =>
    [strL "REV:" ++ (match r with | .date d => formatDateTime d | .str s => s)]

/-- Source formatter.ts lines 159-162 (SORT-STRING). -/
def sortStringLines (sortString : Option (List Char)) (charsetParam : List Char) :
    List (List Char) :=
  optLines sortString fun t => [strL "SORT-STRING" ++ charsetParam ++ ':' :: escapeText t]

/-- Source formatter.ts lines 164-167 (SOUND). -/
def soundLines (sound : Option Media) : List (List Char) :=
  optLines sound fun m => formatMedia (strL "SOUND") m

/-- Source formatter.ts lines 169-172 (UID). -/
def uidLines (uid : Option (List Char)) (charsetParam : List Char) : List (List Char) :=
  optLines uid fun t => [strL "UID" ++ charsetParam ++ ':' :: escapeText t]

/-- Source formatter.ts lines 174-179 (grouped URLs). -/
def urlsLines (urls : Option (List Url)) : List (List Char) :=
  optLines urls fun us => if 0 < us.length then formatUrlsForApple us else []

/-- Source formatter.ts lines 190-193 (CLASS). -/
def classLines (classification : Option Classification) : List (List Char) :=
  optLines classification fun c => [strL "CLASS:" ++ classChars c]

/-- Source formatter.ts lines 195-198 (KEY). -/
def keyLines (key : Option Media) : List (List Char) :=
  optLines key fun m => formatMedia (strL "KEY") m

/-- Source formatter.ts lines 200-221 (custom X- properties). -/
def customLines (customProperties : Option (List CustomProperty))
    (charset : Option (List Char)) : List (List Char) :=
  optLines customProperties fun ps =>
    if 0 < ps.length then ps.map (customPropertyLine charset) else []

/-- Source `formatVCard` (formatter.ts), all lines pushed after the N line,
in source order, up to and including `END:VCARD`. -/
def vcardTail (vcard : VCard) (charset : Option (List Char)) : List (List Char) :=
  let charsetParam := charsetParamFrom charset
  nicknameLines vcard.nickname charsetParam
  ++ photoLines vcard.photo
  ++ bdayLines vcard.birthday
  ++ addressLines vcard.addresses charsetParam
  ++ labelLines vcard.labels charsetParam
  ++ phoneLines vcard.phones
  ++ emailLines vcard.emails charsetParam
  ++ mailerLines vcard.mailer charsetParam
  ++ tzLines vcard.timezone charsetParam
  ++ geoLines vcard.geo
  ++ titleLines vcard.title charsetParam
  ++ roleLines vcard.role charsetParam
  ++ logoLines vcard.logo
  ++ agentLines vcard.agent charsetParam
  ++ orgLines vcard.organization charsetParam
  ++ categoriesLines vcard.categories charsetParam
  ++ noteLines vcard.note charsetParam
  ++ prodidLines vcard.productId charsetParam
  ++ revLines vcard.revision
  ++ sortStringLines vcard.sortString charsetParam
  ++ soundLines vcard.sound
  ++ uidLines vcard.uid charsetParam
  ++ urlsLines vcard.urls
  ++ legacyUrlLines vcard.urls vcard.url
  ++ classLines vcard.classification
  ++ keyLines vcard.key
  ++ customLines vcard.customProperties charset
  ++ [strL "END:VCARD"]

/-- Source `formatVCard` (formatter.ts): the complete logical-line list in
emission order.  The record's own `charset` field is never consulted. -/
def vcardLines (vcard : VCard) (charset : Option (List Char)) : List (List Char) :=
  strL "BEGIN:VCARD" :: strL "VERSION:3.0"
    :: (strL "FN" ++ charsetParamFrom charset ++ ':' :: escapeText vcard.formattedName)
    :: formatName vcard.name (charsetParamFrom charset)
    :: vcardTail vcard charset

/-- Source `formatVCard` (formatter.ts): fold every logical line and join
with CRLF.  `const charset = options?.charset` is the only read of the
options value. -/
def formatVCard (vcard : VCard) (options : Option FormatVCardOptions) : List Char :=
  List.intercalate ['\r', '\n']
    ((vcardLines vcard (options.bind FormatVCardOptions.charset)).map foldLine)

/-- Dynamic-semantics model of `formatVCard` for the error-handling claim:
the two structurally required values may be `undefined` at run time despite
the declared shape.  `escapeText(undefined)` throws a `TypeError`
(`undefined.replace`), as does `formatName(undefined)`
(`name.familyName` on `undefined`); a thrown error is `Except.error ()`.
The `v` argument supplies the remaining (optional) fields; its own
`formattedName`/`name` are the values being overridden. -/
def formatVCardJS (formattedName : Option (List Char)) (nameOpt : Option Name)
    (v : VCard) (options : Option FormatVCardOptions) : Except Unit (List Char) :=
  let charset := options.bind FormatVCardOptions.charset
  match formattedName with
  | none => Except.error ()
  | some fn =>
    match nameOpt with
    | none => Except.error ()
    | some n =>
      Except.ok (List.intercalate ['\r', '\n']
        ((strL "BEGIN:VCARD" :: strL "VERSION:3.0"
          :: (strL "FN" ++ charsetParamFrom charset ++ ':' :: escapeText fn)
          :: formatName n (charsetParamFrom charset)
          :: vcardTail v charset).map foldLine))

/-! ## Concrete records (from the repository's own tests and README) -/

def joseName : Name := { familyName := some (strL "García"), givenName := some (strL "José") }

/-- The record of the repository's charset tests: a record-resident charset
declaration. -/
def joseVCard : VCard :=
  { formattedName := strL "José García", name := joseName, charset := some (strL "UTF-8") }

def johnName : Name := { familyName := some (strL "Doe"), givenName := some (strL "John") }

def johnVCard : VCard := { formattedName := strL "John Doe", name := johnName }

def noteVCard : VCard :=
  { formattedName := strL "X", name := {}, note := some (strL "Hi") }

def dupVCard : VCard :=
  { formattedName := strL "D", name := {},
    url := some (strL "https://example.com"),
    urls := some [{ value := strL "https://example.com", type := some (strL "Website") }] }

def urlsW : List Url :=
  [{ value := strL "https://www.linkedin.com/in/michaelwolz", type := some (strL "LinkedIn") }]

/-! ## Claim C4: escapeText -/

theorem escBackslash_append (a b : List Char) :
    escBackslash (a ++ b) = escBackslash a ++ escBackslash b := by
  induction a with
  | nil => rfl
  | cons c t ih => simp [escBackslash, ih]

theorem escSemicolon_append (a b : List Char) :
    escSemicolon (a ++ b) = escSemicolon a ++ escSemicolon b := by
  induction a with
  | nil => rfl
  | cons c t ih => simp [escSemicolon, ih]

theorem escComma_append (a b : List Char) :
    escComma (a ++ b) = escComma a ++ escComma b := by
  induction a with
  | nil => rfl
  | cons c t ih => simp [escComma, ih]

theorem escNewlineMark_append (a b : List Char) :
    escNewlineMark (a ++ b) = escNewlineMark a ++ escNewlineMark b := by
  induction a with
  | nil => rfl
  | cons c t ih => simp [escNewlineMark, ih]

theorem escPipe_single (c : Char) :
    escNewlineMark (escComma (escSemicolon (if c = '\\' then ['\\', '\\'] else [c])))
      = escChar c := by
  by_cases h1 : c = '\\'
  · subst h1; decide
  by_cases h2 : c = ';'
  · subst h2; decide
  by_cases h3 : c = ','
  · subst h3; decide
  by_cases h4 : c = '\n'
  · subst h4; decide
  simp [escSemicolon, escComma, escNewlineMark, escChar, h1, h2, h3, h4]

theorem escStages_eq_onePass (l : List Char) :
    escNewlineMark (escComma (escSemicolon (escBackslash l))) = escOnePass l := by
  induction l with
  | nil => rfl
  | cons c r ih =>
    have hb : escBackslash (c :: r)
        = (if c = '\\' then ['\\', '\\'] else [c]) ++ escBackslash r := rfl
    rw [show escOnePass (c :: r) = escChar c ++ escOnePass r from rfl,
      hb, escSemicolon_append, escComma_append, escNewlineMark_append, ih, escPipe_single]

/-- Claim C4: `escapeText` first normalizes each CRLF, lone CR and lone LF to
a single line-break marker, then applies, in order, backslash-doubling,
semicolon-escaping, comma-escaping and line-break-escaping — together this
equals a single pass of the per-character escape table over the normalized
text; consequently a CRLF in the input yields one `\n` escape, not two. -/
theorem escapeText_normalize_then_escape :
    (∀ t, escapeText t = escOnePass (normalizeNewlines t))
    ∧ (∀ rest, escapeText ('\r' :: '\n' :: rest) = '\\' :: 'n' :: escapeText rest)
    ∧ escapeText (strL "Line 1\r\nLine 2") = strL "Line 1\\nLine 2" := by
  have main : ∀ t, escapeText t = escOnePass (normalizeNewlines t) := by
    intro t
    unfold escapeText
    exact escStages_eq_onePass (normalizeNewlines t)
  refine ⟨main, ?_, by decide⟩
  intro rest
  rw [main, main]
  have : normalizeNewlines ('\r' :: '\n' :: rest) = '\n' :: normalizeNewlines rest := by
    simp [normalizeNewlines]
  rw [this]
  rfl

/-! ## Claim C5: escapeParamValue -/

theorem normalizeParam_one (c : Char) :
    normalizeParam [c] = if c = '\r' ∨ c = '\n' then [' '] else [c] := rfl

theorem normalizeParam_two (c d : Char) (rest : List Char) :
    normalizeParam (c :: d :: rest)
      = if c = '\r' then
          (if d = '\n' then ' ' :: normalizeParam rest else ' ' :: normalizeParam (d :: rest))
        else if c = '\n' then ' ' :: normalizeParam (d :: rest)
        else c :: normalizeParam (d :: rest) := rfl

theorem normalizeParam_crlf (rest : List Char) :
    normalizeParam ('\r' :: '\n' :: rest) = ' ' :: normalizeParam rest := by
  rw [normalizeParam_two, if_pos rfl, if_pos rfl]

theorem normalizeParam_no_break (v : List Char) :
    ∀ c ∈ normalizeParam v, c ≠ '\r' ∧ c ≠ '\n' := by
  induction v using normalizeParam.induct with
  | case1 => simp [normalizeParam]
  | case2 c h =>
      intro x hx
      rw [normalizeParam_one, if_pos h] at hx
      simp only [List.mem_singleton] at hx
      subst hx
      exact ⟨by decide, by decide⟩
  | case3 c h =>
      intro x hx
      rw [normalizeParam_one, if_neg h] at hx
      simp only [List.mem_singleton] at hx
      subst hx
      push_neg at h
      exact h
  | case4 rest ih =>
      intro x hx
      rw [normalizeParam_crlf] at hx
      rcases List.mem_cons.mp hx with rfl | hx
      · exact ⟨by decide, by decide⟩
      · exact ih x hx
  | case5 d rest hd ih =>
      intro x hx
      rw [normalizeParam_two, if_pos rfl, if_neg hd] at hx
      rcases List.mem_cons.mp hx with rfl | hx
      · exact ⟨by decide, by decide⟩
      · exact ih x hx
  | case6 d rest hnr ih =>
      intro x hx
      rw [normalizeParam_two, if_neg hnr, if_pos rfl] at hx
      rcases List.mem_cons.mp hx with rfl | hx
      · exact ⟨by decide, by decide⟩
      · exact ih x hx
  | case7 c d rest hc hn ih =>
      intro x hx
      rw [normalizeParam_two, if_neg hc, if_neg hn] at hx
      rcases List.mem_cons.mp hx with rfl | hx
      · exact ⟨hc, hn⟩
      · exact ih x hx

/-- Claim C5: `escapeParamValue` first normalizes every line-break variant to
a single space; if the normalized value contains one of double-quote,
semicolon, colon or comma it is returned wrapped in double quotes with every
literal double quote replaced by an apostrophe (so the quoted interior holds
no double quote), otherwise the normalized value is returned unchanged. -/
theorem escapeParamValue_spec :
    (∀ v, ∀ c ∈ normalizeParam v, c ≠ '\r' ∧ c ≠ '\n')
    ∧ (∀ rest, normalizeParam ('\r' :: '\n' :: rest) = ' ' :: normalizeParam rest)
    ∧ (∀ v, (normalizeParam v).any isParamUnsafe = true →
        escapeParamValue v
          = '"' :: (normalizeParam v).map (fun c => if c = '"' then '\'' else c) ++ ['"']
        ∧ ∀ c ∈ (normalizeParam v).map (fun c => if c = '"' then '\'' else c), c ≠ '"')
    ∧ (∀ v, (normalizeParam v).any isParamUnsafe = false →
        escapeParamValue v = normalizeParam v) := by
  refine ⟨normalizeParam_no_break, normalizeParam_crlf, ?_, ?_⟩
  · intro v h
    refine ⟨by simp [escapeParamValue, h], ?_⟩
    intro c hc
    simp only [List.mem_map] at hc
    obtain ⟨x, _, rfl⟩ := hc
    by_cases hx : x = '"'
    · rw [if_pos hx]; decide
    · rw [if_neg hx]; exact hx
  · intro v h
    simp [escapeParamValue, h]

theorem escapeParamValue_spec_witness :
    escapeParamValue (strL "a\"b")
      = '"' :: (normalizeParam (strL "a\"b")).map (fun c => if c = '"' then '\'' else c) ++ ['"'] :=
  (escapeParamValue_spec.2.2.1 (strL "a\"b") (by decide)).1

/-! ## Claim C6: the N property -/

theorem intercalate_five (a b c d e : List Char) :
    List.intercalate [';'] [a, b, c, d, e]
      = a ++ ';' :: b ++ ';' :: c ++ ';' :: d ++ ';' :: e := by
  simp [List.intercalate, List.intersperse]

/-- Claim C6: the serialized N value is the five escaped component texts
(list components comma-joined, absent components empty) joined by exactly
four semicolon separators in the fixed order family, given, additional,
prefixes, suffixes; in particular a fully absent name still renders all four
separators. -/
theorem formatName_four_separators :
    (∀ (name : Name) (cp : List Char),
      formatName name cp
        = 'N' :: cp ++ ':' :: List.intercalate [';']
            [ (match name.familyName with | some s => escapeText s | none => []),
              (match name.givenName with | some s => escapeText s | none => []),
              (match name.additionalNames with
                | some l => if 0 < l.length then List.intercalate [','] (l.map escapeText) else []
                | none => []),
              (match name.honorificPrefixes with
                | some l => if 0 < l.length then List.intercalate [','] (l.map escapeText) else []
                | none => []),
              (match name.honorificSuffixes with
                | some l => if 0 < l.length then List.intercalate [','] (l.map escapeText) else []
                | none => []) ])
    ∧ (∀ cp, formatName ⟨none, none, none, none, none⟩ cp
        = 'N' :: cp ++ [':', ';', ';', ';', ';']) := by
  constructor
  · intro name cp
    rw [intercalate_five]
    simp only [formatName, List.append_assoc, List.cons_append]
  · intro cp
    simp [formatName]

/-! ## Claim C7: grouped URL lines -/

theorem formatUrlsGo_cons (i : Nat) (e : Url) (rest : List Url) :
    formatUrlsGo i (e :: rest)
      = (strL "item" ++ natChars (i + 1) ++ strL ".URL:" ++ e.value)
        :: ((match e.type with
            | some t =>
              if jsTrim t = [] then []
              else [strL "item" ++ natChars (i + 1) ++ strL ".X-ABLabel:" ++ escapeText t]
            | none => []) ++ formatUrlsGo (i + 1) rest) := rfl

theorem formatUrlsGo_append (a b : List Url) (n : Nat) :
    formatUrlsGo n (a ++ b) = formatUrlsGo n a ++ formatUrlsGo (n + a.length) b := by
  induction a generalizing n with
  | nil => simp [formatUrlsGo]
  | cons e t ih =>
      rw [List.cons_append, formatUrlsGo_cons, formatUrlsGo_cons, ih (n + 1)]
      have harith : n + 1 + t.length = n + (e :: t).length := by
        simp [List.length_cons]; omega
      rw [harith]
      simp [List.append_assoc]

/-- Claim C7: for the URL entry at zero-based position `i` (1-based position
`i+1`), the output of `formatUrlsForApple` consists of the lines for the
earlier entries, then a grouped `item{i+1}.URL` line holding the entry value
unescaped, then — exactly when the entry carries a label that is non-empty
after trimming — a grouped `item{i+1}.X-ABLabel` line holding the escaped
label, then the lines for the remaining entries. -/
theorem formatUrlsForApple_grouping (urls : List Url) (i : Nat) (h : i < urls.length) :
    ∃ rest, formatUrlsForApple urls
      = formatUrlsForApple (urls.take i)
        ++ (strL "item" ++ natChars (i + 1) ++ strL ".URL:" ++ (urls.get ⟨i, h⟩).value)
        :: ((match (urls.get ⟨i, h⟩).type with
            | some t =>
              if jsTrim t = [] then []
              else [strL "item" ++ natChars (i + 1) ++ strL ".X-ABLabel:" ++ escapeText t]
            | none => []) ++ rest) := by
  refine ⟨formatUrlsGo (i + 1) (urls.drop (i + 1)), ?_⟩
  conv_lhs => rw [show urls = urls.take i ++ urls.drop i from (List.take_append_drop i urls).symm]
  rw [formatUrlsForApple, formatUrlsForApple, formatUrlsGo_append]
  congr 1
  have hlen : (urls.take i).length = i := by
    rw [List.length_take]; omega
  have hdrop : urls.drop i = urls.get ⟨i, h⟩ :: urls.drop (i + 1) := by
    rw [List.drop_eq_getElem_cons h]
    rfl
  rw [hlen, Nat.zero_add, hdrop, formatUrlsGo_cons]


theorem formatUrlsForApple_grouping_witness :
    ∃ rest, formatUrlsForApple urlsW
      = formatUrlsForApple (urlsW.take 0)
        ++ (strL "item" ++ natChars 1 ++ strL ".URL:" ++ (urlsW.get ⟨0, by decide⟩).value)
        :: ((match (urlsW.get ⟨0, by decide⟩).type with
            | some t =>
              if jsTrim t = [] then []
              else [strL "item" ++ natChars 1 ++ strL ".X-ABLabel:" ++ escapeText t]
            | none => []) ++ rest) :=
  formatUrlsForApple_grouping urlsW 0 (by decide)

/-! ## Claim C3: line folding -/

theorem removeFold_three (c d e : Char) (rest : List Char) :
    removeFold (c :: d :: e :: rest)
      = if c = '\r' ∧ d = '\n' ∧ e = ' ' then removeFold rest
        else c :: removeFold (d :: e :: rest) := rfl

theorem hasFoldSeq_three (c d e : Char) (rest : List Char) :
    hasFoldSeq (c :: d :: e :: rest)
      = if c = '\r' ∧ d = '\n' ∧ e = ' ' then true else hasFoldSeq (d :: e :: rest) := rfl

theorem hasFoldSeq_eq_true_iff (l : List Char) :
    hasFoldSeq l = true ↔ ∃ a b, l = a ++ '\r' :: '\n' :: ' ' :: b := by
  induction l using hasFoldSeq.induct with
  | case1 =>
    simp only [hasFoldSeq]
    constructor
    · intro h; exact absurd h (by decide)
    · rintro ⟨a, b, hab⟩
      rcases a with _ | ⟨x, t⟩ <;> simp_all
  | case2 c =>
    simp only [hasFoldSeq]
    constructor
    · intro h; exact absurd h (by decide)
    · rintro ⟨a, b, hab⟩
      rcases a with _ | ⟨x, _ | ⟨y, t⟩⟩ <;> simp_all
  | case3 c d =>
    simp only [hasFoldSeq]
    constructor
    · intro h; exact absurd h (by decide)
    · rintro ⟨a, b, hab⟩
      rcases a with _ | ⟨x, _ | ⟨y, _ | ⟨z, t⟩⟩⟩ <;> simp_all
  | case4 c d e rest hcond =>
    rw [hasFoldSeq_three, if_pos hcond]
    obtain ⟨rfl, rfl, rfl⟩ := hcond
    constructor
    · intro _; exact ⟨[], rest, rfl⟩
    · intro _; rfl
  | case5 c d e rest hcond ih =>
    rw [hasFoldSeq_three, if_neg hcond]
    constructor
    · intro h
      obtain ⟨a, b, hab⟩ := ih.mp h
      exact ⟨c :: a, b, by rw [hab]; rfl⟩
    · rintro ⟨a, b, hab⟩
      rcases a with _ | ⟨x, t⟩
      · exfalso
        simp only [List.nil_append] at hab
        injection hab with h1 hab
        injection hab with h2 hab
        injection hab with h3 hab
        exact hcond ⟨h1, h2, h3⟩
      · injection hab with hx ht
        exact ih.mpr ⟨t, b, ht⟩

theorem hasFoldSeq_take (l : List Char) (n : Nat) (h : hasFoldSeq l = false) :
    hasFoldSeq (l.take n) = false := by
  cases hx : hasFoldSeq (l.take n) with
  | false => rfl
  | true =>
    exfalso
    obtain ⟨a, b, hab⟩ := (hasFoldSeq_eq_true_iff _).mp hx
    have : l = a ++ '\r' :: '\n' :: ' ' :: (b ++ l.drop n) := by
      conv_lhs => rw [← List.take_append_drop n l]
      rw [hab]
      simp [List.append_assoc]
    rw [(hasFoldSeq_eq_true_iff l).mpr ⟨a, b ++ l.drop n, this⟩] at h
    exact absurd h (by decide)

theorem hasFoldSeq_drop (l : List Char) (n : Nat) (h : hasFoldSeq l = false) :
    hasFoldSeq (l.drop n) = false := by
  cases hx : hasFoldSeq (l.drop n) with
  | false => rfl
  | true =>
    exfalso
    obtain ⟨a, b, hab⟩ := (hasFoldSeq_eq_true_iff _).mp hx
    have : l = (l.take n ++ a) ++ '\r' :: '\n' :: ' ' :: b := by
      conv_lhs => rw [← List.take_append_drop n l]
      rw [hab]
      simp [List.append_assoc]
    rw [(hasFoldSeq_eq_true_iff l).mpr ⟨l.take n ++ a, b, this⟩] at h
    exact absurd h (by decide)

theorem removeFold_append_aux (rest : List Char)
    (h1 : rest.head? ≠ some '\n') (h2 : rest.head? ≠ some ' ') :
    ∀ (n : Nat) (a : List Char), a.length ≤ n → hasFoldSeq a = false →
      removeFold (a ++ rest) = a ++ removeFold rest := by
  intro n
  induction n with
  | zero =>
    intro a hle _
    have ha : a = [] := List.eq_nil_of_length_eq_zero (Nat.le_zero.mp hle)
    subst ha
    simp
  | succ n ih =>
    intro a hle ha
    rcases a with _ | ⟨c, _ | ⟨d, _ | ⟨e, t⟩⟩⟩
    · simp
    · rcases rest with _ | ⟨r1, _ | ⟨r2, rt⟩⟩
      · simp [removeFold]
      · simp [removeFold]
      · have hr1 : ¬r1 = '\n' := by
          intro hh
          exact h1 (by rw [hh]; rfl)
        rw [List.singleton_append, removeFold_three, if_neg (fun hcond => hr1 hcond.2.1)]
        rfl
    · rcases rest with _ | ⟨r1, rt⟩
      · simp [removeFold]
      · have hr1 : ¬r1 = ' ' := by
          intro hh
          exact h2 (by rw [hh]; rfl)
        have hstep : ([c, d] : List Char) ++ r1 :: rt = c :: d :: r1 :: rt := rfl
        rw [hstep, removeFold_three, if_neg (fun hcond => hr1 hcond.2.2)]
        have ihd := ih [d] (by simp at hle ⊢; omega) (by rfl)
        rw [List.singleton_append] at ihd
        rw [ihd]
        rfl
    · by_cases hcond : c = '\r' ∧ d = '\n' ∧ e = ' '
      · exfalso
        rw [hasFoldSeq_three, if_pos hcond] at ha
        exact absurd ha (by decide)
      · have htail : hasFoldSeq (d :: e :: t) = false := by
          rw [hasFoldSeq_three, if_neg hcond] at ha
          exact ha
        have hexp : (c :: d :: e :: t) ++ rest = c :: d :: e :: (t ++ rest) := rfl
        rw [hexp, removeFold_three, if_neg hcond]
        have iht := ih (d :: e :: t) (by simp at hle ⊢; omega) htail
        have hexp2 : (d :: e :: t) ++ rest = d :: e :: (t ++ rest) := rfl
        rw [hexp2] at iht
        rw [iht]
        rfl

theorem removeFold_append (a rest : List Char) (ha : hasFoldSeq a = false)
    (h1 : rest.head? ≠ some '\n') (h2 : rest.head? ≠ some ' ') :
    removeFold (a ++ rest) = a ++ removeFold rest :=
  removeFold_append_aux rest h1 h2 a.length a le_rfl ha

theorem removeFold_nil : removeFold [] = [] := rfl

theorem removeFold_self (a : List Char) (ha : hasFoldSeq a = false) :
    removeFold a = a := by
  have h := removeFold_append a [] ha (by simp) (by simp)
  simpa [removeFold_nil] using h

theorem foldTail_eq (cur : List Char) :
    foldTail cur = if cur.isEmpty then []
      else '\r' :: '\n' :: ' ' :: (cur.take 74 ++ foldTail (cur.drop 74)) := by
  rw [foldTail]

theorem foldTail_nil : foldTail [] = [] := by
  rw [foldTail_eq]
  rfl

theorem foldTail_cons (c : Char) (t : List Char) :
    foldTail (c :: t)
      = '\r' :: '\n' :: ' ' :: ((c :: t).take 74 ++ foldTail ((c :: t).drop 74)) := by
  rw [foldTail_eq]
  rfl

theorem foldTail_head (cur : List Char) :
    foldTail cur = [] ∨ ∃ t, foldTail cur = '\r' :: t := by
  cases cur with
  | nil => exact Or.inl foldTail_nil
  | cons c t => exact Or.inr ⟨_, foldTail_cons c t⟩

theorem removeFold_foldTail_aux :
    ∀ (n : Nat) (cur : List Char), cur.length ≤ n → hasFoldSeq cur = false →
      removeFold (foldTail cur) = cur := by
  intro n
  induction n with
  | zero =>
    intro cur hle _
    have hc : cur = [] := List.eq_nil_of_length_eq_zero (Nat.le_zero.mp hle)
    subst hc
    rw [foldTail_nil]
    rfl
  | succ n ih =>
    intro cur hle hc
    rcases cur with _ | ⟨c, t⟩
    · rw [foldTail_nil]; rfl
    · rw [foldTail_cons, removeFold_three, if_pos ⟨rfl, rfl, rfl⟩]
      have htake : hasFoldSeq ((c :: t).take 74) = false := hasFoldSeq_take _ _ hc
      have hdropSeq : hasFoldSeq ((c :: t).drop 74) = false := hasFoldSeq_drop _ _ hc
      have h1 : (foldTail ((c :: t).drop 74)).head? ≠ some '\n' := by
        rcases foldTail_head ((c :: t).drop 74) with hh | ⟨tt, hh⟩ <;> rw [hh] <;> simp
      have h2 : (foldTail ((c :: t).drop 74)).head? ≠ some ' ' := by
        rcases foldTail_head ((c :: t).drop 74) with hh | ⟨tt, hh⟩ <;> rw [hh] <;> simp
      rw [removeFold_append _ _ htake h1 h2]
      have hlen : ((c :: t).drop 74).length ≤ n := by
        simp only [List.length_drop, List.length_cons] at *
        omega
      rw [ih _ hlen hdropSeq]
      exact List.take_append_drop 74 (c :: t)

theorem removeFold_foldTail (cur : List Char) (hc : hasFoldSeq cur = false) :
    removeFold (foldTail cur) = cur :=
  removeFold_foldTail_aux cur.length cur le_rfl hc

theorem splitCRLF_two (c d : Char) (rest : List Char) :
    splitCRLF (c :: d :: rest)
      = if c = '\r' ∧ d = '\n' then [] :: splitCRLF rest
        else consHead c (splitCRLF (d :: rest)) := rfl

theorem consHead_ne_nil (c : Char) (x : List (List Char)) : consHead c x ≠ [] := by
  cases x <;> simp [consHead]

theorem splitCRLF_ne_nil (l : List Char) : splitCRLF l ≠ [] := by
  induction l using splitCRLF.induct with
  | case1 => simp [splitCRLF]
  | case2 c => simp [splitCRLF]
  | case3 c d rest hcond ih =>
    rw [splitCRLF_two, if_pos hcond]
    simp
  | case4 c d rest hcond ih =>
    rw [splitCRLF_two, if_neg hcond]
    exact consHead_ne_nil _ _

theorem consHead_append (c : Char) (x y : List (List Char)) (hx : x ≠ []) :
    consHead c (x ++ y) = consHead c x ++ y := by
  cases x with
  | nil => exact absurd rfl hx
  | cons s ss => rfl

theorem splitCRLF_append_aux :
    ∀ (n : Nat) (a : List Char), a.length ≤ n → ∀ (b : List Char),
      splitCRLF (a ++ '\r' :: '\n' :: b) = splitCRLF a ++ splitCRLF b := by
  intro n
  induction n with
  | zero =>
    intro a hle b
    have ha : a = [] := List.eq_nil_of_length_eq_zero (Nat.le_zero.mp hle)
    subst ha
    rw [List.nil_append, splitCRLF_two, if_pos ⟨rfl, rfl⟩]
    rfl
  | succ n ih =>
    intro a hle b
    rcases a with _ | ⟨c, _ | ⟨d, t⟩⟩
    · rw [List.nil_append, splitCRLF_two, if_pos ⟨rfl, rfl⟩]
      rfl
    · have hstep : ([c] : List Char) ++ '\r' :: '\n' :: b = c :: '\r' :: '\n' :: b := rfl
      rw [hstep, splitCRLF_two, if_neg (fun hcond => absurd hcond.2 (by decide)),
        splitCRLF_two, if_pos ⟨rfl, rfl⟩]
      rfl
    · by_cases hcd : c = '\r' ∧ d = '\n'
      · have hstep : (c :: d :: t) ++ '\r' :: '\n' :: b = c :: d :: (t ++ '\r' :: '\n' :: b) := rfl
        rw [hstep, splitCRLF_two, if_pos hcd, ih t (by simp at hle ⊢; omega) b,
          splitCRLF_two, if_pos hcd]
        rfl
      · have hstep : (c :: d :: t) ++ '\r' :: '\n' :: b = c :: ((d :: t) ++ '\r' :: '\n' :: b) := rfl
        have hout : splitCRLF (c :: ((d :: t) ++ '\r' :: '\n' :: b))
            = consHead c (splitCRLF ((d :: t) ++ '\r' :: '\n' :: b)) := by
          rw [show c :: ((d :: t) ++ '\r' :: '\n' :: b) = c :: d :: (t ++ '\r' :: '\n' :: b) from rfl,
            splitCRLF_two, if_neg hcd]
          rfl
        rw [hstep, hout, ih (d :: t) (by simp at hle ⊢; omega) b,
          consHead_append c _ _ (splitCRLF_ne_nil _), splitCRLF_two, if_neg hcd]

theorem splitCRLF_append (a b : List Char) :
    splitCRLF (a ++ '\r' :: '\n' :: b) = splitCRLF a ++ splitCRLF b :=
  splitCRLF_append_aux a.length a le_rfl b

theorem splitCRLF_seg_length (l : List Char) :
    ∀ seg ∈ splitCRLF l, seg.length ≤ l.length := by
  induction l using splitCRLF.induct with
  | case1 => simp [splitCRLF]
  | case2 c => simp [splitCRLF]
  | case3 c d rest hcond ih =>
    obtain ⟨rfl, rfl⟩ := hcond
    rw [splitCRLF_two, if_pos ⟨rfl, rfl⟩]
    intro seg hseg
    rcases List.mem_cons.mp hseg with rfl | hseg
    · simp
    · have := ih seg hseg
      simp only [List.length_cons]
      omega
  | case4 c d rest hcond ih =>
    rw [splitCRLF_two, if_neg hcond]
    intro seg hseg
    rcases hsp : splitCRLF (d :: rest) with _ | ⟨s, ss⟩
    · exact absurd hsp (splitCRLF_ne_nil _)
    · rw [hsp] at hseg
      simp only [consHead] at hseg
      rcases List.mem_cons.mp hseg with rfl | hseg
      · have hs : s ∈ splitCRLF (d :: rest) := by rw [hsp]; exact List.mem_cons_self _ _
        have := ih s hs
        simp only [List.length_cons] at *
        omega
      · have hs : seg ∈ splitCRLF (d :: rest) := by rw [hsp]; exact List.mem_cons_of_mem _ hseg
        have := ih seg hs
        simp only [List.length_cons] at *
        omega

theorem splitCRLF_segs_bound_aux :
    ∀ (n : Nat) (cur : List Char), cur.length ≤ n → ∀ (a : List Char), a.length ≤ 75 →
      ∀ seg ∈ splitCRLF (a ++ foldTail cur), seg.length ≤ 75 := by
  intro n
  induction n with
  | zero =>
    intro cur hle a ha seg hseg
    have hc : cur = [] := List.eq_nil_of_length_eq_zero (Nat.le_zero.mp hle)
    subst hc
    rw [foldTail_nil, List.append_nil] at hseg
    exact le_trans (splitCRLF_seg_length a seg hseg) ha
  | succ n ih =>
    intro cur hle a ha seg hseg
    rcases cur with _ | ⟨c, t⟩
    · rw [foldTail_nil, List.append_nil] at hseg
      exact le_trans (splitCRLF_seg_length a seg hseg) ha
    · rw [foldTail_cons,
        show a ++ '\r' :: '\n' :: ' ' :: ((c :: t).take 74 ++ foldTail ((c :: t).drop 74))
          = a ++ '\r' :: '\n' :: ((' ' :: (c :: t).take 74) ++ foldTail ((c :: t).drop 74)) from rfl,
        splitCRLF_append] at hseg
      rcases List.mem_append.mp hseg with h | h
      · exact le_trans (splitCRLF_seg_length a seg h) ha
      · refine ih ((c :: t).drop 74) ?_ (' ' :: (c :: t).take 74) ?_ seg h
        · simp only [List.length_drop, List.length_cons] at *
          omega
        · simp only [List.length_cons, List.length_take]
          omega

theorem foldTail_chunks_aux :
    ∀ (n : Nat) (cur : List Char), cur.length ≤ n →
      ∃ chunks : List (List Char),
        foldTail cur = (chunks.map (fun ch => '\r' :: '\n' :: ' ' :: ch)).flatten
        ∧ chunks.flatten = cur
        ∧ ∀ ch ∈ chunks, ch ≠ [] ∧ ch.length ≤ 74 := by
  intro n
  induction n with
  | zero =>
    intro cur hle
    have hc : cur = [] := List.eq_nil_of_length_eq_zero (Nat.le_zero.mp hle)
    subst hc
    exact ⟨[], by simp [foldTail_nil], rfl, by simp⟩
  | succ n ih =>
    intro cur hle
    rcases cur with _ | ⟨c, t⟩
    · exact ⟨[], by simp [foldTail_nil], rfl, by simp⟩
    · obtain ⟨chunks, h1, h2, h3⟩ := ih ((c :: t).drop 74)
        (by simp only [List.length_drop, List.length_cons] at *; omega)
      refine ⟨(c :: t).take 74 :: chunks, ?_, ?_, ?_⟩
      · rw [foldTail_cons, h1]
        simp [List.append_assoc]
      · rw [List.flatten_cons, h2]
        exact List.take_append_drop 74 (c :: t)
      · intro ch hch
        rcases List.mem_cons.mp hch with rfl | hch
        · constructor
          · rw [show (c :: t).take 74 = c :: t.take 73 from rfl]
            simp
          · rw [List.length_take]
            omega
        · exact h3 ch hch

/-- Claim C3 (amended only in the round-trip conjunct: the input must not
itself contain the CRLF-plus-space fold sequence, else unfolding also
deletes that occurrence): for an input free of the fold sequence, deleting
every CR LF SP occurrence from `foldLine s` reconstructs `s`; and for every
string whatsoever, every segment of `foldLine s` between CR LF terminators
has length at most 75, a string of length at most 75 is returned unchanged,
and a longer string becomes its first 75 characters followed by non-empty
continuation chunks of at most 74 characters, each preceded by CR LF SP. -/
theorem foldLine_spec (s : List Char) :
    (hasFoldSeq s = false → removeFold (foldLine s) = s)
    ∧ (∀ seg ∈ splitCRLF (foldLine s), seg.length ≤ 75)
    ∧ (s.length ≤ 75 → foldLine s = s)
    ∧ (75 < s.length → ∃ chunks : List (List Char),
        foldLine s = s.take 75 ++ (chunks.map (fun ch => '\r' :: '\n' :: ' ' :: ch)).flatten
        ∧ chunks.flatten = s.drop 75
        ∧ ∀ ch ∈ chunks, ch ≠ [] ∧ ch.length ≤ 74) := by
  by_cases hlen : s.length ≤ 75
  · rw [show foldLine s = s from by rw [foldLine, if_pos hlen]]
    refine ⟨fun h => removeFold_self s h, ?_, fun _ => rfl, fun hgt => absurd hlen (by omega)⟩
    intro seg hseg
    exact le_trans (splitCRLF_seg_length s seg hseg) hlen
  · rw [show foldLine s = s.take 75 ++ foldTail (s.drop 75) from by rw [foldLine, if_neg hlen]]
    refine ⟨fun h => ?_, ?_, fun hle => absurd hle hlen, fun _ => ?_⟩
    · have htake : hasFoldSeq (s.take 75) = false := hasFoldSeq_take _ _ h
      have hdropSeq : hasFoldSeq (s.drop 75) = false := hasFoldSeq_drop _ _ h
      have h1 : (foldTail (s.drop 75)).head? ≠ some '\n' := by
        rcases foldTail_head (s.drop 75) with hh | ⟨tt, hh⟩ <;> rw [hh] <;> simp
      have h2 : (foldTail (s.drop 75)).head? ≠ some ' ' := by
        rcases foldTail_head (s.drop 75) with hh | ⟨tt, hh⟩ <;> rw [hh] <;> simp
      rw [removeFold_append _ _ htake h1 h2, removeFold_foldTail _ hdropSeq]
      exact List.take_append_drop 75 s
    · intro seg hseg
      refine splitCRLF_segs_bound_aux (s.drop 75).length (s.drop 75) le_rfl (s.take 75) ?_ seg hseg
      rw [List.length_take]
      omega
    · obtain ⟨chunks, h1, h2, h3⟩ := foldTail_chunks_aux (s.drop 75).length (s.drop 75) le_rfl
      exact ⟨chunks, by rw [h1], h2, h3⟩

/-- Claim C3 counterexample: for the three-character string CR LF SP,
`foldLine` returns it unchanged (length 3 ≤ 75), yet deleting every
CR-LF-space occurrence yields the empty string, not the original: the
claimed round trip fails for strings already containing the fold sequence. -/
theorem foldLine_roundtrip_counterexample :
    foldLine ['\r', '\n', ' '] = ['\r', '\n', ' ']
    ∧ removeFold (foldLine ['\r', '\n', ' ']) ≠ ['\r', '\n', ' '] := by
  constructor
  · decide
  · decide

theorem foldLine_spec_witness :
    (hasFoldSeq (strL "abc") = false ∧ removeFold (foldLine (strL "abc")) = strL "abc")
    ∧ (∀ seg ∈ splitCRLF (foldLine ['\r', '\n', ' ']), seg.length ≤ 75) :=
  ⟨⟨by decide, (foldLine_spec (strL "abc")).1 (by decide)⟩,
    (foldLine_spec ['\r', '\n', ' ']).2.1⟩


/-! ## Claim C1: the MIME Content-Type header -/

/-- Claim C1, the code evaluated at the failing inputs: `formatVCard` never
emits the directory-profile MIME header.  With a record-declared charset,
and likewise with the `includeContentType` option set, the output starts
directly at `BEGIN:VCARD` and contains no `Content-Type` line and no blank
separator line — contradicting the claimed header rule, the README and the
repository's own charset tests. -/
theorem contentType_header_never_emitted :
    formatVCard joseVCard none
      = List.intercalate ['\r', '\n']
          [strL "BEGIN:VCARD", strL "VERSION:3.0", strL "FN:José García",
           strL "N:García;José;;;", strL "END:VCARD"]
    ∧ formatVCard johnVCard (some { charset := none, includeContentType := true })
      = List.intercalate ['\r', '\n']
          [strL "BEGIN:VCARD", strL "VERSION:3.0", strL "FN:John Doe",
           strL "N:Doe;John;;;", strL "END:VCARD"] := by
  exact ⟨by decide, by decide⟩

/-! ## Claim C2: per-property CHARSET parameters -/

/-- Claim C2 counterexample: a record that itself declares a charset, passed
with no options, produces free-text property lines (here FN) carrying no
CHARSET parameter at all — the record-resident charset field drives
nothing. -/
theorem recordCharset_param_counterexample :
    joseVCard.charset = some (strL "UTF-8")
    ∧ vcardLines joseVCard none
      = [strL "BEGIN:VCARD", strL "VERSION:3.0", strL "FN:José García",
         strL "N:García;José;;;", strL "END:VCARD"]
    ∧ formatVCard joseVCard none
      = List.intercalate ['\r', '\n'] ((vcardLines joseVCard none).map foldLine) := by
  exact ⟨rfl, by decide, rfl⟩

/-- Claim C2 (amended: the per-property CHARSET parameter is driven by the
`charset` option passed to `formatVCard`, not by the record's own charset
field): with a charset option the FN, N, NOTE and NICKNAME free-text lines
carry the `;CHARSET=` parameter suffix naming it, and with no charset option
that suffix is empty, so those lines carry no CHARSET parameter. -/
theorem charsetParam_follows_option (v : VCard) (charset : Option (List Char)) :
    ((vcardLines v charset).get? 2
      = some (strL "FN" ++ charsetParamFrom charset ++ ':' :: escapeText v.formattedName))
    ∧ ((vcardLines v charset).get? 3 = some (formatName v.name (charsetParamFrom charset)))
    ∧ (∀ t, v.note = some t →
        (strL "NOTE" ++ charsetParamFrom charset ++ ':' :: escapeText t) ∈ vcardLines v charset)
    ∧ (∀ l, v.nickname = some l → 0 < l.length →
        (strL "NICKNAME" ++ charsetParamFrom charset ++ ':'
          :: List.intercalate [','] (l.map escapeText)) ∈ vcardLines v charset)
    ∧ (∀ c, charset = some c →
        charsetParamFrom charset = strL ";CHARSET=" ++ escapeParamValue c)
    ∧ (charset = none → charsetParamFrom charset = [])
    ∧ formatVCard v (some { charset := charset, includeContentType := false })
        = List.intercalate ['\r', '\n'] ((vcardLines v charset).map foldLine) := by
  refine ⟨rfl, rfl, ?_, ?_, ?_, ?_, rfl⟩
  · intro t ht
    simp [vcardLines, vcardTail, noteLines, optLines, ht, List.mem_append, List.mem_cons]
  · intro l hl hlen
    simp [vcardLines, vcardTail, nicknameLines, optLines, hl, hlen, List.mem_append,
      List.mem_cons]
  · intro c hc
    subst hc
    rfl
  · intro hc
    subst hc
    rfl


theorem charsetParam_follows_option_witness :
    (strL "NOTE" ++ charsetParamFrom (some (strL "UTF-8")) ++ ':' :: escapeText (strL "Hi"))
      ∈ vcardLines noteVCard (some (strL "UTF-8")) :=
  (charsetParam_follows_option noteVCard (some (strL "UTF-8"))).2.2.1 (strL "Hi") rfl

/-! ## Claim C9: error behavior for missing required values -/

/-- Claim C9 counterexample: with the required formatted display name
missing at run time, the serializer raises a runtime fault
(`undefined.replace` inside `escapeText` throws a TypeError, modelled as
`Except.error`) instead of silently rendering an empty text as claimed. -/
theorem missing_formattedName_faults :
    formatVCardJS none (some johnName) johnVCard none = Except.error () := rfl

/-- Claim C9 (amended): on structurally valid input the serializer raises no
error and agrees with the total serializer; absent components of the
structured name degrade to empty texts between the separators; but a missing
top-level required value — the formatted display name or the whole
structured name — raises a runtime fault rather than rendering empty text. -/
theorem required_values_behavior :
    (∀ (fn : List Char) (n : Name) (v : VCard) (o : Option FormatVCardOptions),
      formatVCardJS (some fn) (some n) v o
        = Except.ok (formatVCard { v with formattedName := fn, name := n } o))
    ∧ (∀ cp, formatName ⟨none, none, none, none, none⟩ cp
        = 'N' :: cp ++ [':', ';', ';', ';', ';'])
    ∧ (∀ (nOpt : Option Name) (v : VCard) (o : Option FormatVCardOptions),
        formatVCardJS none nOpt v o = Except.error ())
    ∧ (∀ (fn : List Char) (v : VCard) (o : Option FormatVCardOptions),
        formatVCardJS (some fn) none v o = Except.error ()) := by
  refine ⟨?_, ?_, ?_, ?_⟩
  · intro fn n v o
    rfl
  · intro cp
    simp [formatName]
  · intro nOpt v o
    rfl
  · intro fn v o
    rfl

/-! ## Claim C10: output depends only on the charset option -/

/-- Claim C10: two calls whose options agree on the charset option produce
character-for-character identical output, whatever the `includeContentType`
option and the record's own charset field are — the formatter reads neither. -/
theorem output_independent_of_contentType_flag_and_record_charset
    (v : VCard) (c1 c2 : Option (List Char)) (o1 o2 : Option FormatVCardOptions)
    (h : o1.bind FormatVCardOptions.charset = o2.bind FormatVCardOptions.charset) :
    formatVCard { v with charset := c1 } o1 = formatVCard { v with charset := c2 } o2 := by
  unfold formatVCard
  rw [h]
  rfl

theorem output_independent_witness :
    formatVCard { johnVCard with charset := some (strL "UTF-8") }
        (some { charset := none, includeContentType := true })
      = formatVCard { johnVCard with charset := none } none :=
  output_independent_of_contentType_flag_and_record_charset johnVCard
    (some (strL "UTF-8")) none (some { charset := none, includeContentType := true }) none rfl

/-! ## Claim C8: legacy URL duplicate suppression -/

theorem count_optLines_zero {α : Type} (o : Option α) (f : α → List (List Char))
    (target : List Char) (hf : ∀ x, ∀ line ∈ f x, line ≠ target) :
    List.count target (optLines o f) = 0 := by
  cases o with
  | none => rfl
  | some x =>
    refine List.count_eq_zero.mpr ?_
    intro hmem
    exact hf x target hmem rfl

theorem formatAddress_ne_url (a : Address) (cp u : List Char) :
    formatAddress a cp ≠ strL "URL:" ++ u := by
  simp [formatAddress, strL]

theorem formatTelephone_ne_url (p : Phone) (u : List Char) :
    formatTelephone p ≠ strL "URL:" ++ u := by
  simp [formatTelephone, strL]

theorem formatEmail_ne_url (e : Email) (cp u : List Char) :
    formatEmail e cp ≠ strL "URL:" ++ u := by
  simp [formatEmail, strL]

theorem formatMedia_mem_ne_url (pn : List Char) (p : Char) (pt : List Char)
    (hpn : pn = p :: pt) (hp : p ≠ 'U') (m : Media) (u : List Char) :
    ∀ line ∈ formatMedia pn m, line ≠ strL "URL:" ++ u := by
  intro line hline
  rw [formatMedia.eq_def] at hline
  by_cases hkey : pn = strL "KEY"
  · rw [if_pos hkey] at hline
    rcases m with ⟨uri, mt⟩ | ⟨val, mt⟩
    · simp only [List.mem_singleton] at hline
      subst hline
      simp [strL]
    · simp only [List.mem_singleton] at hline
      subst hline
      simp [strL]
  · rw [if_neg hkey] at hline
    rcases m with ⟨uri, mt⟩ | ⟨val, mt⟩
    · simp only [List.mem_singleton] at hline
      subst hline
      subst hpn
      simp [strL, hp]
    · simp only [List.mem_singleton] at hline
      subst hline
      subst hpn
      simp [strL, hp]

theorem formatUrlsGo_ne_url (u : List Char) :
    ∀ (us : List Url) (n : Nat) (line : List Char),
      line ∈ formatUrlsGo n us → line ≠ strL "URL:" ++ u := by
  intro us
  induction us with
  | nil =>
    intro n line h
    simp [formatUrlsGo] at h
  | cons e t ih =>
    intro n line hline
    rw [formatUrlsGo_cons] at hline
    rcases List.mem_cons.mp hline with rfl | hline
    · simp [strL]
    · rcases List.mem_append.mp hline with h | h
      · cases htype : e.type with
        | none => rw [htype] at h; simp at h
        | some lab =>
          rw [htype] at h
          dsimp only at h
          by_cases hj : jsTrim lab = []
          · rw [if_pos hj] at h; simp at h
          · rw [if_neg hj] at h
            simp only [List.mem_singleton] at h
            subst h
            simp [strL]
      · exact ih (n + 1) line h

theorem count_nicknameLines (o : Option (List (List Char))) (cp u : List Char) :
    List.count (strL "URL:" ++ u) (nicknameLines o cp) = 0 := by
  unfold nicknameLines
  apply count_optLines_zero
  intro x line hline
  by_cases hl : 0 < x.length
  · rw [if_pos hl] at hline
    simp only [List.mem_singleton] at hline
    subst hline
    simp [strL]
  · rw [if_neg hl] at hline
    simp at hline

theorem count_photoLines (o : Option Media) (u : List Char) :
    List.count (strL "URL:" ++ u) (photoLines o) = 0 := by
  unfold photoLines
  apply count_optLines_zero
  intro x line hline
  exact formatMedia_mem_ne_url _ 'P' _ rfl (by decide) x u line hline

theorem count_logoLines (o : Option Media) (u : List Char) :
    List.count (strL "URL:" ++ u) (logoLines o) = 0 := by
  unfold logoLines
  apply count_optLines_zero
  intro x line hline
  exact formatMedia_mem_ne_url _ 'L' _ rfl (by decide) x u line hline

theorem count_soundLines (o : Option Media) (u : List Char) :
    List.count (strL "URL:" ++ u) (soundLines o) = 0 := by
  unfold soundLines
  apply count_optLines_zero
  intro x line hline
  exact formatMedia_mem_ne_url _ 'S' _ rfl (by decide) x u line hline

theorem count_keyLines (o : Option Media) (u : List Char) :
    List.count (strL "URL:" ++ u) (keyLines o) = 0 := by
  unfold keyLines
  apply count_optLines_zero
  intro x line hline
  exact formatMedia_mem_ne_url _ 'K' _ rfl (by decide) x u line hline

theorem count_bdayLines (o : Option DateOr) (u : List Char) :
    List.count (strL "URL:" ++ u) (bdayLines o) = 0 := by
  unfold bdayLines
  apply count_optLines_zero
  intro x line hline
  simp only [List.mem_singleton] at hline
  subst hline
  rcases x with d | s <;> simp [strL]

theorem count_addressLines (o : Option (List Address)) (cp u : List Char) :
    List.count (strL "URL:" ++ u) (addressLines o cp) = 0 := by
  unfold addressLines
  apply count_optLines_zero
  intro x line hline
  obtain ⟨a, _, rfl⟩ := List.mem_map.mp hline
  exact formatAddress_ne_url a cp u

theorem count_labelLines (o : Option (List LabelEntry)) (cp u : List Char) :
    List.count (strL "URL:" ++ u) (labelLines o cp) = 0 := by
  unfold labelLines
  apply count_optLines_zero
  intro x line hline
  obtain ⟨lab, _, rfl⟩ := List.mem_map.mp hline
  simp [strL]

theorem count_phoneLines (o : Option (List Phone)) (u : List Char) :
    List.count (strL "URL:" ++ u) (phoneLines o) = 0 := by
  unfold phoneLines
  apply count_optLines_zero
  intro x line hline
  obtain ⟨p, _, rfl⟩ := List.mem_map.mp hline
  exact formatTelephone_ne_url p u

theorem count_emailLines (o : Option (List Email)) (cp u : List Char) :
    List.count (strL "URL:" ++ u) (emailLines o cp) = 0 := by
  unfold emailLines
  apply count_optLines_zero
  intro x line hline
  obtain ⟨e, _, rfl⟩ := List.mem_map.mp hline
  exact formatEmail_ne_url e cp u

theorem count_mailerLines (o : Option (List Char)) (cp u : List Char) :
    List.count (strL "URL:" ++ u) (mailerLines o cp) = 0 := by
  unfold mailerLines
  apply count_optLines_zero
  intro x line hline
  simp only [List.mem_singleton] at hline
  subst hline
  simp [strL]

theorem count_tzLines (o : Option (List Char)) (cp u : List Char) :
    List.count (strL "URL:" ++ u) (tzLines o cp) = 0 := by
  unfold tzLines
  apply count_optLines_zero
  intro x line hline
  by_cases hz : isUtcOffset x
  · rw [if_pos hz] at hline
    simp only [List.mem_singleton] at hline
    subst hline
    simp [strL]
  · rw [if_neg hz] at hline
    simp only [List.mem_singleton] at hline
    subst hline
    simp [strL]

theorem count_geoLines (o : Option Geo) (u : List Char) :
    List.count (strL "URL:" ++ u) (geoLines o) = 0 := by
  unfold geoLines
  apply count_optLines_zero
  intro x line hline
  simp only [List.mem_singleton] at hline
  subst hline
  simp [strL]

theorem count_titleLines (o : Option (List Char)) (cp u : List Char) :
    List.count (strL "URL:" ++ u) (titleLines o cp) = 0 := by
  unfold titleLines
  apply count_optLines_zero
  intro x line hline
  simp only [List.mem_singleton] at hline
  subst hline
  simp [strL]

theorem count_roleLines (o : Option (List Char)) (cp u : List Char) :
    List.count (strL "URL:" ++ u) (roleLines o cp) = 0 := by
  unfold roleLines
  apply count_optLines_zero
  intro x line hline
  simp only [List.mem_singleton] at hline
  subst hline
  simp [strL]

theorem count_agentLines (o : Option Agent) (cp u : List Char) :
    List.count (strL "URL:" ++ u) (agentLines o cp) = 0 := by
  unfold agentLines
  apply count_optLines_zero
  intro x line hline
  obtain ⟨av, au⟩ := x
  rcases au with _ | uu
  · rcases av with _ | tv
    · simp at hline
    · simp only [List.mem_singleton] at hline
      subst hline
      simp [strL]
  · simp only [List.mem_singleton] at hline
    subst hline
    simp [strL]

theorem count_orgLines (o : Option Organization) (cp u : List Char) :
    List.count (strL "URL:" ++ u) (orgLines o cp) = 0 := by
  unfold orgLines
  apply count_optLines_zero
  intro x line hline
  revert hline
  dsimp only
  split
  · intro hline
    simp only [List.mem_singleton] at hline
    subst hline
    simp [strL]
  · intro hline
    simp at hline

theorem count_categoriesLines (o : Option (List (List Char))) (cp u : List Char) :
    List.count (strL "URL:" ++ u) (categoriesLines o cp) = 0 := by
  unfold categoriesLines
  apply count_optLines_zero
  intro x line hline
  by_cases hl : 0 < x.length
  · rw [if_pos hl] at hline
    simp only [List.mem_singleton] at hline
    subst hline
    simp [strL]
  · rw [if_neg hl] at hline
    simp at hline

theorem count_noteLines (o : Option (List Char)) (cp u : List Char) :
    List.count (strL "URL:" ++ u) (noteLines o cp) = 0 := by
  unfold noteLines
  apply count_optLines_zero
  intro x line hline
  simp only [List.mem_singleton] at hline
  subst hline
  simp [strL]

theorem count_prodidLines (o : Option (List Char)) (cp u : List Char) :
    List.count (strL "URL:" ++ u) (prodidLines o cp) = 0 := by
  unfold prodidLines
  apply count_optLines_zero
  intro x line hline
  simp only [List.mem_singleton] at hline
  subst hline
  simp [strL]

theorem count_revLines (o : Option DateOr) (u : List Char) :
    List.count (strL "URL:" ++ u) (revLines o) = 0 := by
  unfold revLines
  apply count_optLines_zero
  intro x line hline
  simp only [List.mem_singleton] at hline
  subst hline
  rcases x with d | s <;> simp [strL]

theorem count_sortStringLines (o : Option (List Char)) (cp u : List Char) :
    List.count (strL "URL:" ++ u) (sortStringLines o cp) = 0 := by
  unfold sortStringLines
  apply count_optLines_zero
  intro x line hline
  simp only [List.mem_singleton] at hline
  subst hline
  simp [strL]

theorem count_uidLines (o : Option (List Char)) (cp u : List Char) :
    List.count (strL "URL:" ++ u) (uidLines o cp) = 0 := by
  unfold uidLines
  apply count_optLines_zero
  intro x line hline
  simp only [List.mem_singleton] at hline
  subst hline
  simp [strL]

theorem count_urlsLines (o : Option (List Url)) (u : List Char) :
    List.count (strL "URL:" ++ u) (urlsLines o) = 0 := by
  unfold urlsLines
  apply count_optLines_zero
  intro x line hline
  by_cases hl : 0 < x.length
  · rw [if_pos hl] at hline
    exact formatUrlsGo_ne_url u x 0 line hline
  · rw [if_neg hl] at hline
    simp at hline

theorem count_classLines (o : Option Classification) (u : List Char) :
    List.count (strL "URL:" ++ u) (classLines o) = 0 := by
  unfold classLines
  apply count_optLines_zero
  intro x line hline
  simp only [List.mem_singleton] at hline
  subst hline
  simp [strL]

theorem customLines_none (charset : Option (List Char)) :
    customLines none charset = [] := rfl

theorem count_endline (u : List Char) :
    List.count (strL "URL:" ++ u) [strL "END:VCARD"] = 0 := by
  rw [List.count_cons_of_ne (by simp [strL])]
  rfl

theorem count_vcardLines_url (v : VCard) (charset : Option (List Char)) (u : List Char)
    (hcp : v.customProperties = none) :
    List.count (strL "URL:" ++ u) (vcardLines v charset)
      = List.count (strL "URL:" ++ u) (legacyUrlLines v.urls v.url) := by
  unfold vcardLines vcardTail
  rw [hcp]
  rw [List.count_cons_of_ne (by simp [strL]), List.count_cons_of_ne (by simp [strL]),
    List.count_cons_of_ne (by simp [strL]),
    List.count_cons_of_ne (by simp [formatName, strL])]
  simp only [List.count_append, count_nicknameLines, count_photoLines, count_bdayLines,
    count_addressLines, count_labelLines, count_phoneLines, count_emailLines,
    count_mailerLines, count_tzLines, count_geoLines, count_titleLines, count_roleLines,
    count_logoLines, count_agentLines, count_orgLines, count_categoriesLines,
    count_noteLines, count_prodidLines, count_revLines, count_sortStringLines,
    count_soundLines, count_uidLines, count_urlsLines, count_classLines, count_keyLines,
    customLines_none, count_endline, List.count_nil, Nat.zero_add, Nat.add_zero]

/-- Claim C8: when the record carries the legacy single URL field and no
custom extension properties, a legacy value equal to some entry of the URL
list produces no bare `URL:` line at all, while a legacy value distinct from
every entry produces exactly one bare `URL:` line with that value. -/
theorem legacyUrl_dedup (v : VCard) (charset : Option (List Char)) (u : List Char)
    (hurl : v.url = some u) (hcp : v.customProperties = none) :
    ((match v.urls with | some us => us.any (fun e => e.value == u) | none => false) = true →
      (strL "URL:" ++ u) ∉ vcardLines v charset)
    ∧ ((match v.urls with | some us => us.any (fun e => e.value == u) | none => false) = false →
      List.count (strL "URL:" ++ u) (vcardLines v charset) = 1) := by
  have hleg : legacyUrlLines v.urls v.url
      = if (match v.urls with | some us => us.any (fun e => e.value == u) | none => false)
        then [] else [strL "URL:" ++ u] := by
    rw [legacyUrlLines, hurl]
    rfl
  constructor
  · intro hdup
    apply List.count_eq_zero.mp
    rw [count_vcardLines_url v charset u hcp, hleg, if_pos hdup]
    rfl
  · intro hdup
    rw [count_vcardLines_url v charset u hcp, hleg,
      if_neg (by rw [hdup]; exact Bool.false_ne_true)]
    simp


theorem legacyUrl_dedup_witness :
    (strL "URL:" ++ strL "https://example.com") ∉ vcardLines dupVCard none :=
  (legacyUrl_dedup dupVCard none (strL "https://example.com") rfl rfl).1 (by decide)
